import Mathlib

/-
  Verification of the 6502-subset emulator core: a shallow embedding of
  src/src/bus.rs (flat 64K memory) and src/src/cpu.rs (CPU state and the
  fetch/decode/execute loop), with theorems checking the specification
  claims against it.

  Machine integers are embedded as Nat with explicit wraparound:
  u8 values live below 256, u16 addresses below 65536, and every
  wrapping_add of the source appears as an explicit mod.
-/

set_option maxRecDepth 100000
set_option maxHeartbeats 1000000

namespace NES

/-- Flat 64K memory, embedded as a function from addresses to byte values.
In the source the index type is u16, so only addresses below 65536 occur. -/
abbrev Mem := Nat → Nat

namespace Ram

/-- Embeds Ram::new from src/src/bus.rs: all 65536 bytes zero-initialized. -/
def new : Mem := fun _ => 0

/-- Embeds the read of impl Bus for Ram: return the byte at the address. -/
def read (m : Mem) (addr : Nat) : Nat := m addr

/-- Embeds the write of impl Bus for Ram: replace the byte at the address. -/
def write (m : Mem) (addr data : Nat) : Mem :=
  fun a => if a = addr then data else m a

/-- Copies the program bytes one by one into memory starting at start:
the effect of the slice copy_from_slice in Ram::load once in range. -/
def loadBytes (m : Mem) (start : Nat) : List Nat → Mem
  | [] => m
  | b :: bs => loadBytes (write m start b) (start + 1) bs

/-- Embeds Ram::load from src/src/bus.rs. The source computes
end = start + program.len() and copies into the slice mem[start..end];
when end exceeds 65536 the slice indexing panics before any byte is
copied, which this embedding renders as none. -/
def load (m : Mem) (start : Nat) (program : List Nat) : Option Mem :=
  if start + program.length > 65536 then none
  else some (loadBytes m start program)

end Ram

/-- Embeds the CPU struct of src/src/cpu.rs: its only state is the
accumulator, the X register, the status byte and the program counter. -/
structure CPU where
  register_a : Nat
  register_x : Nat
  status : Nat
  program_counter : Nat
deriving DecidableEq

namespace CPU

/-- Embeds CPU::new from src/src/cpu.rs: all registers and flags zero. -/
def new : CPU :=
  { register_a := 0, register_x := 0, status := 0, program_counter := 0 }

end CPU

/-- Embeds CPU::update_zero_and_negative_flags as a status transformer:
set or clear the zero flag (bit 1) on result == 0, then set or clear the
negative flag (bit 7) on bit 7 of the result. -/
def update_zero_and_negative_flags (status result : Nat) : Nat :=
  let s1 := if result = 0 then status ||| 0x02 else status &&& 0xFD
  if result &&& 0x80 ≠ 0 then s1 ||| 0x80 else s1 &&& 0x7F

/-- Reinterpretation of a byte as a signed 8-bit value, the effect of the
Rust cast of a u8 to i8 (bus bytes are below 256). -/
def i8val (b : Nat) : Int :=
  if b < 128 then (b : Int) else (b : Int) - 256

namespace CPU

/-- Embeds CPU::branch from src/src/cpu.rs: the program counter and the
signed offset are widened (to i32 in the source, here to Int), added, and
the sum is truncated back to u16, i.e. taken mod 65536. -/
def branch (c : CPU) (offset : Int) : CPU :=
  { c with program_counter :=
      (((c.program_counter : Int) + offset) % 65536).toNat }

end CPU

/-- Outcome of executing one instruction of the run loop of
src/src/cpu.rs: either a successor state, a normal return (opcode 0x00),
or the panic of the default match arm. The fault constructor records the
opcode interpolated into the panic message; the state and memory it
carries are the ones left untouched in the borrow of the caller, since
the default arm mutates nothing before panicking. -/
inductive StepRes where
  | next (c : CPU) (m : Mem)
  | halt (c : CPU) (m : Mem)
  | fault (opcode : Nat) (c : CPU) (m : Mem)

namespace CPU

/-- Embeds one iteration of the loop in CPU::run from src/src/cpu.rs:
read the opcode at the program counter and dispatch on it. Each arm
mirrors the corresponding match arm of the source; wrapping_add on the
program counter is mod 65536, wrapping_add on register_x is mod 256. -/
def step (c : CPU) (bus : Mem) : StepRes :=
  let opcode := Ram.read bus c.program_counter
  if opcode = 0xA9 then
    -- LDA Immediate
    let value := Ram.read bus ((c.program_counter + 1) % 65536)
    .next { c with
      program_counter := (c.program_counter + 2) % 65536,
      register_a := value,
      status := update_zero_and_negative_flags c.status value } bus
  else if opcode = 0xAD then
    -- LDA Absolute
    let lo := Ram.read bus ((c.program_counter + 1) % 65536)
    let hi := Ram.read bus ((c.program_counter + 2) % 65536)
    let addr := (hi <<< 8) ||| lo
    let value := Ram.read bus addr
    .next { c with
      program_counter := (c.program_counter + 3) % 65536,
      register_a := value,
      status := update_zero_and_negative_flags c.status value } bus
  else if opcode = 0xAA then
    -- TAX
    .next { c with
      program_counter := (c.program_counter + 1) % 65536,
      register_x := c.register_a,
      status := update_zero_and_negative_flags c.status c.register_a } bus
  else if opcode = 0xE8 then
    -- INX
    let x := (c.register_x + 1) % 256
    .next { c with
      program_counter := (c.program_counter + 1) % 65536,
      register_x := x,
      status := update_zero_and_negative_flags c.status x } bus
  else if opcode = 0x8D then
    -- STA Absolute
    let lo := Ram.read bus ((c.program_counter + 1) % 65536)
    let hi := Ram.read bus ((c.program_counter + 2) % 65536)
    let addr := (hi <<< 8) ||| lo
    .next { c with program_counter := (c.program_counter + 3) % 65536 }
      (Ram.write bus addr c.register_a)
  else if opcode = 0x4C then
    -- JMP Absolute
    let lo := Ram.read bus ((c.program_counter + 1) % 65536)
    let hi := Ram.read bus ((c.program_counter + 2) % 65536)
    .next { c with program_counter := (hi <<< 8) ||| lo } bus
  else if opcode = 0xF0 then
    -- BEQ
    let offset := Ram.read bus ((c.program_counter + 1) % 65536)
    let c2 := { c with program_counter := (c.program_counter + 2) % 65536 }
    if c.status &&& 0x02 ≠ 0 then .next (c2.branch (i8val offset)) bus
    else .next c2 bus
  else if opcode = 0xD0 then
    -- BNE
    let offset := Ram.read bus ((c.program_counter + 1) % 65536)
    let c2 := { c with program_counter := (c.program_counter + 2) % 65536 }
    if c.status &&& 0x02 = 0 then .next (c2.branch (i8val offset)) bus
    else .next c2 bus
  else if opcode = 0x90 then
    -- BCC
    let offset := Ram.read bus ((c.program_counter + 1) % 65536)
    let c2 := { c with program_counter := (c.program_counter + 2) % 65536 }
    if c.status &&& 0x01 = 0 then .next (c2.branch (i8val offset)) bus
    else .next c2 bus
  else if opcode = 0xB0 then
    -- BCS
    let offset := Ram.read bus ((c.program_counter + 1) % 65536)
    let c2 := { c with program_counter := (c.program_counter + 2) % 65536 }
    if c.status &&& 0x01 ≠ 0 then .next (c2.branch (i8val offset)) bus
    else .next c2 bus
  else if opcode = 0x30 then
    -- BMI
    let offset := Ram.read bus ((c.program_counter + 1) % 65536)
    let c2 := { c with program_counter := (c.program_counter + 2) % 65536 }
    if c.status &&& 0x80 ≠ 0 then .next (c2.branch (i8val offset)) bus
    else .next c2 bus
  else if opcode = 0x10 then
    -- BPL
    let offset := Ram.read bus ((c.program_counter + 1) % 65536)
    let c2 := { c with program_counter := (c.program_counter + 2) % 65536 }
    if c.status &&& 0x80 = 0 then .next (c2.branch (i8val offset)) bus
    else .next c2 bus
  else if opcode = 0x00 then
    -- BRK: return from run, mutating nothing
    .halt c bus
  else
    -- default arm: panic, mutating nothing
    .fault opcode c bus

end CPU

/-- Final outcome of CPU::run: a normal return on opcode 0x00, or the
panic of the default arm on an unsupported opcode. -/
inductive RunRes where
  | halted (c : CPU) (m : Mem)
  | fault (opcode : Nat) (c : CPU) (m : Mem)

namespace CPU

/-- Embeds the loop of CPU::run, made total with a fuel argument: none
means the fuel ran out before the loop returned or panicked. -/
def run : Nat → CPU → Mem → Option RunRes
  | 0, _, _ => none
  | fuel + 1, c, m =>
    match c.step m with
    | .next c2 m2 => run fuel c2 m2
    | .halt c2 m2 => some (.halted c2 m2)
    | .fault op c2 m2 => some (.fault op c2 m2)

end CPU

/-- The exhaustively enumerated opcode set handled by named match arms of
CPU::run (every other byte reaches the panicking default arm). -/
def supported (opcode : Nat) : Bool :=
  opcode ∈ [0xA9, 0xAD, 0xAA, 0xE8, 0x8D, 0x4C,
            0xF0, 0xD0, 0x90, 0xB0, 0x30, 0x10, 0x00]

/-- Program counter of a normally returned run, when there is one. -/
def haltedPC : Option RunRes → Option Nat
  | some (.halted c _) => some c.program_counter
  | _ => none

/-- Memory byte at a given address of a normally returned run. -/
def haltedMemAt (a : Nat) : Option RunRes → Option Nat
  | some (.halted _ m) => some (m a)
  | _ => none

/-- Payload of the panic a run ended in, when it ended in one: the panic
message of the source interpolates exactly the opcode byte. -/
def faultPayload : Option RunRes → Option Nat
  | some (.fault op _ _) => some op
  | _ => none

/-- Program counter at the moment of the panic a run ended in. -/
def faultPC : Option RunRes → Option Nat
  | some (.fault _ c _) => some c.program_counter
  | _ => none

/-- Branch conditions of the six branch opcodes, read off the respective
match arms of CPU::run: BEQ tests the Zero flag set, BNE clear, BCC the
Carry flag clear, BCS set, BMI the Negative flag set, BPL clear. -/
def branchCond (op status : Nat) : Bool :=
  if op = 0xF0 then status &&& 0x02 != 0
  else if op = 0xD0 then status &&& 0x02 == 0
  else if op = 0x90 then status &&& 0x01 == 0
  else if op = 0xB0 then status &&& 0x01 != 0
  else if op = 0x30 then status &&& 0x80 != 0
  else if op = 0x10 then status &&& 0x80 == 0
  else false

/-- Taken-branch target as the claim words it: address of the opcode,
plus 2, plus the operand byte read as a signed 8-bit value, the sum taken
mod 65536. -/
def claimedBranchTarget (pc operand : Nat) : Nat :=
  (((pc : Int) + 2 + i8val operand) % 65536).toNat

/-- Memory component of a step outcome. -/
def memOf : StepRes → Mem
  | .next _ m2 => m2
  | .halt _ m2 => m2
  | .fault _ _ m2 => m2

/-- Memory left behind by one instruction of the run loop, whatever the
outcome: the run loop threads the same borrowed bus through every arm. -/
def stepMem (c : CPU) (m : Mem) : Mem := memOf (c.step m)

/-- Modelled from the spec: the stack-carrying CPU state the stack
primitives act on. The CPU struct under src has no stack_pointer field,
so this state (an 8-bit stack pointer together with the memory) embeds
the description in the spec section on stack primitives. -/
structure StackState where
  stack_pointer : Nat
  mem : Mem

/-- Modelled from the spec: push_byte writes the value at the fixed page
address 0x0100 ||| stack_pointer, then decrements the stack pointer with
8-bit wraparound. -/
def push_byte (s : StackState) (v : Nat) : StackState :=
  { stack_pointer := (s.stack_pointer + 255) % 256,
    mem := Ram.write s.mem (0x0100 ||| s.stack_pointer) v }

/-- Modelled from the spec: pop_byte increments the stack pointer with
8-bit wraparound, then reads from 0x0100 ||| stack_pointer. -/
def pop_byte (s : StackState) : StackState × Nat :=
  let sp := (s.stack_pointer + 1) % 256
  ({ s with stack_pointer := sp }, Ram.read s.mem (0x0100 ||| sp))

/-- Modelled from the spec: push_word pushes the high byte of a 16-bit
value, then its low byte. -/
def push_word (s : StackState) (v : Nat) : StackState :=
  push_byte (push_byte s (v >>> 8)) (v &&& 0xFF)

/-- Modelled from the spec: pop_word pops the low byte, then the high
byte, and recombines them. -/
def pop_word (s : StackState) : StackState × Nat :=
  let p1 := pop_byte s
  let p2 := pop_byte p1.1
  (p2.1, (p2.2 <<< 8) ||| p1.2)

/-- Witness program image: BEQ with offset 2 at address 0. -/
def memBEQ : Mem := fun a => if a = 0 then 0xF0 else if a = 1 then 0x02 else 0

/-- Failing-input image for the unsupported-opcode fault: every byte is
0xFF, which no match arm of CPU::run handles. -/
def memFF : Mem := fun _ => 0xFF

/-- Counterexample image: BRK at address 0 while the IRQ vector at
0xFFFE/0xFFFF holds the address 0x1234 little-endian. -/
def memVec : Mem :=
  fun a => if a = 0xFFFE then 0x34 else if a = 0xFFFF then 0x12 else 0

/-- Witness program image: INX at address 0, BRK at address 1. -/
def memINX : Mem := fun a => if a = 0 then 0xE8 else 0

/-- Witness program image: STA absolute to address 0x1234. -/
def memSTA : Mem :=
  fun a => if a = 0 then 0x8D else if a = 1 then 0x34
           else if a = 2 then 0x12 else 0

/-- The flag update rule on a zero result: for 8-bit statuses, bit 1 is
set, bit 7 is cleared, the rest is untouched. -/
lemma updateZN_zero_case :
    ∀ s < 256,
      ((s ||| 0x02) &&& 0x7F) &&& 0x02 = 0x02
      ∧ ((s ||| 0x02) &&& 0x7F) &&& 0x80 = 0
      ∧ ((s ||| 0x02) &&& 0x7F) &&& 0x7D = s &&& 0x7D := by
  decide

/-- The flag update rule on a nonzero result with bit 7 set: for 8-bit
statuses, bit 1 is cleared, bit 7 is set, the rest is untouched. -/
lemma updateZN_negative_case :
    ∀ s < 256,
      ((s &&& 0xFD) ||| 0x80) &&& 0x02 = 0
      ∧ ((s &&& 0xFD) ||| 0x80) &&& 0x80 = 0x80
      ∧ ((s &&& 0xFD) ||| 0x80) &&& 0x7D = s &&& 0x7D := by
  decide

/-- The flag update rule on a nonzero result with bit 7 clear: for 8-bit
statuses, bits 1 and 7 are cleared, the rest is untouched. -/
lemma updateZN_plain_case :
    ∀ s < 256,
      ((s &&& 0xFD) &&& 0x7F) &&& 0x02 = 0
      ∧ ((s &&& 0xFD) &&& 0x7F) &&& 0x80 = 0
      ∧ ((s &&& 0xFD) &&& 0x7F) &&& 0x7D = s &&& 0x7D := by
  decide

/-- C1: for every 8-bit status and every 8-bit result, the flag update
rule sets the Zero flag (bit 1) iff the result is 0, sets the Negative
flag (bit 7) iff bit 7 of the result is set, and leaves every other
status bit (mask 0x7D, Carry included) unchanged — for any prior status,
hence independently of the operation that produced the result. -/
theorem C1_flag_update_rule :
    ∀ s < 256, ∀ r < 256,
      (update_zero_and_negative_flags s r &&& 0x02
          = if r = 0 then 0x02 else 0)
      ∧ (update_zero_and_negative_flags s r &&& 0x80
          = if r &&& 0x80 ≠ 0 then 0x80 else 0)
      ∧ (update_zero_and_negative_flags s r &&& 0x7D = s &&& 0x7D) := by
  intro s hs r hr
  by_cases hz : r = 0
  · have hb : r &&& 0x80 = 0 := by subst hz; decide
    simp only [update_zero_and_negative_flags, hz, if_pos rfl, hb,
      ne_eq, not_true_eq_false, if_neg, not_false_eq_true, if_true]
    simpa [hb] using updateZN_zero_case s hs
  · by_cases hb : r &&& 0x80 = 0
    · simp only [update_zero_and_negative_flags, if_neg hz, hb,
        ne_eq, not_true_eq_false, if_false]
      simpa [hz, hb] using updateZN_plain_case s hs
    · simp only [update_zero_and_negative_flags, if_neg hz, ne_eq, hb,
        not_false_eq_true, if_true]
      simpa [hz, hb] using updateZN_negative_case s hs

/-- Closed instance of C1 at status 0x45 and result 0x80. -/
theorem C1_flag_update_rule_witness :
    (update_zero_and_negative_flags 0x45 0x80 &&& 0x02
        = if (0x80 : Nat) = 0 then 0x02 else 0)
    ∧ (update_zero_and_negative_flags 0x45 0x80 &&& 0x80
        = if (0x80 : Nat) &&& 0x80 ≠ 0 then 0x80 else 0)
    ∧ (update_zero_and_negative_flags 0x45 0x80 &&& 0x7D
        = 0x45 &&& 0x7D) :=
  C1_flag_update_rule 0x45 (by decide) 0x80 (by decide)

/-- C2: for each branch opcode, one step of the run loop leaves every
register and memory byte unchanged and sets the program counter to the
claimed target (opcode address + 2 + sign-extended operand, mod 65536)
when its condition holds, and to opcode address + 2 (mod 65536) when it
does not. -/
theorem C2_branch_rule (c : CPU) (m : Mem) (op : Nat)
    (hmem : Ram.read m c.program_counter = op)
    (hop : op ∈ [0xF0, 0xD0, 0x90, 0xB0, 0x30, 0x10]) :
    c.step m = .next { c with program_counter :=
      (if branchCond op c.status
       then claimedBranchTarget c.program_counter
              (Ram.read m ((c.program_counter + 1) % 65536))
       else (c.program_counter + 2) % 65536) } m := by
  simp only [List.mem_cons, List.not_mem_nil, or_false] at hop
  rcases hop with rfl | rfl | rfl | rfl | rfl | rfl
  · -- BEQ 0xF0
    by_cases hc : c.status &&& 0x02 = 0 <;>
      simp [CPU.step, hmem, branchCond, hc, CPU.branch, claimedBranchTarget]
  · -- BNE 0xD0
    by_cases hc : c.status &&& 0x02 = 0 <;>
      simp [CPU.step, hmem, branchCond, hc, CPU.branch, claimedBranchTarget]
  · -- BCC 0x90
    by_cases hc : c.status % 2 = 0
    · have hc1 : ¬ c.status % 2 = 1 := by omega
      simp [CPU.step, hmem, branchCond, Nat.and_one_is_mod, hc, hc1,
        CPU.branch, claimedBranchTarget]
    · have hc1 : c.status % 2 = 1 := by omega
      simp [CPU.step, hmem, branchCond, Nat.and_one_is_mod, hc, hc1,
        CPU.branch, claimedBranchTarget]
  · -- BCS 0xB0
    by_cases hc : c.status % 2 = 0
    · have hc1 : ¬ c.status % 2 = 1 := by omega
      simp [CPU.step, hmem, branchCond, Nat.and_one_is_mod, hc, hc1,
        CPU.branch, claimedBranchTarget]
    · have hc1 : c.status % 2 = 1 := by omega
      simp [CPU.step, hmem, branchCond, Nat.and_one_is_mod, hc, hc1,
        CPU.branch, claimedBranchTarget]
  · -- BMI 0x30
    by_cases hc : c.status &&& 0x80 = 0 <;>
      simp [CPU.step, hmem, branchCond, hc, CPU.branch, claimedBranchTarget]
  · -- BPL 0x10
    by_cases hc : c.status &&& 0x80 = 0 <;>
      simp [CPU.step, hmem, branchCond, hc, CPU.branch, claimedBranchTarget]

/-- Closed instance of C2: BEQ at address 0 with the Zero flag set and
operand 2 steps to program counter 4. -/
theorem C2_branch_rule_witness :
    CPU.step { register_a := 0, register_x := 0, status := 0x02,
               program_counter := 0 } memBEQ
      = .next { register_a := 0, register_x := 0, status := 0x02,
                program_counter := 4 } memBEQ :=
  (C2_branch_rule
    { register_a := 0, register_x := 0, status := 0x02, program_counter := 0 }
    memBEQ 0xF0 rfl (by decide)).trans rfl

/-- Any opcode outside the supported set reaches the default match arm
of CPU::run, which panics before mutating any register, flag or memory
byte: the fault carries the opcode and the untouched state. -/
lemma step_unsupported (c : CPU) (m : Mem)
    (h : supported (Ram.read m c.program_counter) = false) :
    c.step m = .fault (Ram.read m c.program_counter) c m := by
  obtain ⟨h1, h2, h3, h4, h5, h6, h7, h8, h9, h10, h11, h12, h13⟩ :
      Ram.read m c.program_counter ≠ 0xA9
      ∧ Ram.read m c.program_counter ≠ 0xAD
      ∧ Ram.read m c.program_counter ≠ 0xAA
      ∧ Ram.read m c.program_counter ≠ 0xE8
      ∧ Ram.read m c.program_counter ≠ 0x8D
      ∧ Ram.read m c.program_counter ≠ 0x4C
      ∧ Ram.read m c.program_counter ≠ 0xF0
      ∧ Ram.read m c.program_counter ≠ 0xD0
      ∧ Ram.read m c.program_counter ≠ 0x90
      ∧ Ram.read m c.program_counter ≠ 0xB0
      ∧ Ram.read m c.program_counter ≠ 0x30
      ∧ Ram.read m c.program_counter ≠ 0x10
      ∧ Ram.read m c.program_counter ≠ 0x00 := by
    simpa [supported, not_or] using h
  simp [CPU.step, h1, h2, h3, h4, h5, h6, h7, h8, h9, h10, h11, h12, h13]

/-- C3, evaluated at the failing input: running from a fresh CPU over
memory whose every byte is 0xFF panics at once. The panic message of the
source carries only the opcode byte, not the program counter, and the
run result records that no register, flag or memory byte was mutated:
the state at the fault is still CPU::new and the memory is untouched.
The claimed recoverable UnsupportedOpcode result does not exist in the
code: the default match arm aborts the process instead. -/
theorem C3_unsupported_opcode_panics :
    CPU.run 2 CPU.new memFF = some (.fault 0xFF CPU.new memFF) := rfl

/-- C4, evaluated at the failing input: loading two bytes at 0xFFFF
would run past the 64K address space, and Ram::load panics (rendered
none) instead of returning the claimed recoverable OutOfRangeLoad
result. The panic happens at the slice indexing, before any byte is
copied. -/
theorem C4_out_of_range_load_panics :
    Ram.load Ram.new 0xFFFF [0xAA, 0xBB] = none := rfl

/-- On fetching opcode 0x00 the run loop returns at once, leaving the
whole CPU state and memory unchanged. -/
lemma step_brk (c : CPU) (m : Mem)
    (h : Ram.read m c.program_counter = 0x00) :
    c.step m = .halt c m := by
  simp [CPU.step, h]

/-- C5 counterexample: with BRK at address 0 and the IRQ vector holding
0x1234, the claim predicts a final program counter of 0x1234 and status
pushes on the stack page; the code instead returns with the program
counter still 0 and the stack page bytes still zero. -/
theorem C5_counterexample :
    haltedPC (CPU.run 2 CPU.new memVec) = some 0
    ∧ haltedPC (CPU.run 2 CPU.new memVec) ≠ some 0x1234
    ∧ haltedMemAt 0x01FB (CPU.run 2 CPU.new memVec) = some 0
    ∧ haltedMemAt 0x01FC (CPU.run 2 CPU.new memVec) = some 0
    ∧ haltedMemAt 0x01FD (CPU.run 2 CPU.new memVec) = some 0 := by
  exact ⟨rfl, by decide, rfl, rfl, rfl⟩

/-- C5 amended: executing opcode 0x00 makes run return immediately with
every register, the status, the program counter and every memory byte
unchanged: no push, no Interrupt-disable flag, no IRQ vector load. -/
theorem C5_brk_returns_unchanged (c : CPU) (m : Mem)
    (h : Ram.read m c.program_counter = 0x00) :
    c.step m = .halt c m :=
  step_brk c m h

/-- Closed instance of C5 amended: a fresh CPU over all-zero memory. -/
theorem C5_brk_returns_unchanged_witness :
    CPU.step CPU.new Ram.new = .halt CPU.new Ram.new :=
  C5_brk_returns_unchanged CPU.new Ram.new rfl

/-- A memory byte outside the loaded range is untouched by loadBytes. -/
lemma loadBytes_outside (bs : List Nat) :
    ∀ m s a, a < s ∨ s + bs.length ≤ a → Ram.loadBytes m s bs a = m a := by
  induction bs with
  | nil => intro m s a _; rfl
  | cons b bs ih =>
    intro m s a h
    simp only [List.length_cons] at h
    simp only [Ram.loadBytes]
    rw [ih (Ram.write m s b) (s + 1) a (by omega)]
    simp only [Ram.write]
    rw [if_neg (by omega)]

/-- A memory byte inside the loaded range holds the loaded list entry. -/
lemma loadBytes_getD (bs : List Nat) :
    ∀ m s i, i < bs.length → Ram.loadBytes m s bs (s + i) = bs.getD i 0 := by
  induction bs with
  | nil => intro m s i h; simp at h
  | cons b bs ih =>
    intro m s i h
    cases i with
    | zero =>
      simp only [Ram.loadBytes]
      rw [loadBytes_outside bs (Ram.write m s b) (s + 1) (s + 0) (by omega)]
      simp [Ram.write]
    | succ j =>
      simp only [Ram.loadBytes]
      rw [show s + (j + 1) = (s + 1) + j by omega,
        ih (Ram.write m s b) (s + 1) j (by simpa using h)]
      simp

/-- C6: reading fresh memory gives zero; a write replaces exactly the
byte at its address and no other; a successful load places the loaded
bytes from the start address on and leaves every byte outside the loaded
range at its previous value — together: read returns the byte most
recently written by write or load, or zero if never written. -/
theorem C6_ram_contract (m : Mem) (a d q : Nat) (p : List Nat) (s : Nat)
    (m2 : Mem) :
    Ram.read Ram.new a = 0
    ∧ Ram.read (Ram.write m a d) a = d
    ∧ (q ≠ a → Ram.read (Ram.write m a d) q = Ram.read m q)
    ∧ (Ram.load m s p = some m2 →
        (∀ i, i < p.length → Ram.read m2 (s + i) = p.getD i 0)
        ∧ (∀ b, b < s ∨ s + p.length ≤ b → Ram.read m2 b = Ram.read m b)) := by
  refine ⟨rfl, by simp [Ram.read, Ram.write],
    fun hq => by simp [Ram.read, Ram.write, hq], fun hl => ?_⟩
  unfold Ram.load at hl
  split at hl
  · exact absurd hl (by simp)
  · obtain rfl : m2 = Ram.loadBytes m s p := (Option.some.inj hl).symm
    exact ⟨fun i hi => loadBytes_getD p m s i hi,
           fun b hb => loadBytes_outside p m s b hb⟩

/-- Closed instance of C6: a write at 3 leaves address 4 alone, and
loading [1, 2] at 10 puts 2 at address 11. -/
theorem C6_ram_contract_witness :
    Ram.read (Ram.write Ram.new 3 7) 4 = Ram.read Ram.new 4
    ∧ Ram.read (Ram.loadBytes Ram.new 10 [1, 2]) (10 + 1) = [1, 2].getD 1 0 :=
  ⟨(C6_ram_contract Ram.new 3 7 4 [1, 2] 10
      (Ram.loadBytes Ram.new 10 [1, 2])).2.2.1 (by decide),
   ((C6_ram_contract Ram.new 3 7 4 [1, 2] 10
      (Ram.loadBytes Ram.new 10 [1, 2])).2.2.2 rfl).1 1 (by decide)⟩

/-- The stack page address 0x0100 ||| sp is 256 + sp for 8-bit sp. -/
lemma lor_256 (a : Nat) (h : a < 256) : 0x0100 ||| a = 256 + a := by
  have hb : a < 2 ^ 8 := by simpa using h
  have := (Nat.mul_add_lt_is_or hb 1).symm
  simpa using this

/-- Recombining the high byte and the low byte of a 16-bit value by
shift and or restores the value. -/
lemma word_recombine (w : Nat) :
    ((w >>> 8) <<< 8) ||| (w &&& 0xFF) = w := by
  have hlow : w &&& 0xFF = w % 256 := by
    simpa using Nat.and_pow_two_sub_one_eq_mod w 8
  have hshr : w >>> 8 = w / 256 := by
    simpa using Nat.shiftRight_eq_div_pow w 8
  have hb : w % 256 < 2 ^ 8 := by
    simpa using Nat.mod_lt w (show 0 < 256 by norm_num)
  have hor := Nat.mul_add_lt_is_or hb (w / 256)
  rw [hlow, hshr, Nat.shiftLeft_eq, Nat.mul_comm (w / 256) (2 ^ 8), ← hor]
  have h28 : (2 : Nat) ^ 8 = 256 := by norm_num
  rw [h28]
  omega

/-- C8: for an 8-bit stack pointer, push_byte then pop_byte returns the
pushed byte and restores the stack pointer; push_word then pop_word
returns any pushed 16-bit value exactly and restores the stack pointer. -/
theorem C8_stack_round_trip (st : StackState) (v w : Nat)
    (hsp : st.stack_pointer < 256) (_hw : w < 65536) :
    ((pop_byte (push_byte st v)).2 = v
      ∧ (pop_byte (push_byte st v)).1.stack_pointer = st.stack_pointer)
    ∧ ((pop_word (push_word st w)).2 = w
      ∧ (pop_word (push_word st w)).1.stack_pointer = st.stack_pointer) := by
  have h4 : ((st.stack_pointer + 255) % 256 + 1) % 256 = st.stack_pointer := by
    omega
  have hsp1lt : (st.stack_pointer + 255) % 256 < 256 := by omega
  have e1 : (st.stack_pointer + 255 + 255 + 1) % 256
      = (st.stack_pointer + 255) % 256 := by omega
  have e2 : (st.stack_pointer + 255 + 255 + 1 + 1) % 256
      = st.stack_pointer := by omega
  have e3 : (st.stack_pointer + 255 + 1) % 256 = st.stack_pointer := by
    omega
  have hne : 0x0100 ||| st.stack_pointer
      ≠ 0x0100 ||| (st.stack_pointer + 255) % 256 := by
    rw [lor_256 _ hsp, lor_256 _ hsp1lt]
    omega
  refine ⟨⟨?_, ?_⟩, ?_, ?_⟩
  · simp [pop_byte, push_byte, h4, Ram.read, Ram.write]
  · simp [pop_byte, push_byte, h4]
  · simp [pop_word, push_word, pop_byte, push_byte, e1, e2, e3,
      Ram.read, Ram.write, hne]
    exact word_recombine w
  · simp [pop_word, push_word, pop_byte, push_byte, e1, e2, e3]

/-- Closed instance of C8 at stack pointer 0xFD, byte 0x42 and word
0xBEEF over fresh memory. -/
theorem C8_stack_round_trip_witness :
    ((pop_byte (push_byte ⟨0xFD, Ram.new⟩ 0x42)).2 = 0x42
      ∧ (pop_byte (push_byte ⟨0xFD, Ram.new⟩ 0x42)).1.stack_pointer = 0xFD)
    ∧ ((pop_word (push_word ⟨0xFD, Ram.new⟩ 0xBEEF)).2 = 0xBEEF
      ∧ (pop_word (push_word ⟨0xFD, Ram.new⟩ 0xBEEF)).1.stack_pointer
          = 0xFD) :=
  C8_stack_round_trip ⟨0xFD, Ram.new⟩ 0x42 0xBEEF (by decide) (by decide)

/-- Inversion of the run-loop step: a normal return arises only in the
0x00 arm, which leaves state and memory untouched. -/
lemma step_halt_inv (c : CPU) (m : Mem) (c2 : CPU) (m2 : Mem)
    (h : c.step m = .halt c2 m2) :
    Ram.read m c.program_counter = 0x00 ∧ c2 = c ∧ m2 = m := by
  by_cases hsup : supported (Ram.read m c.program_counter) = true
  · simp only [supported, List.mem_cons, List.not_mem_nil, or_false,
      decide_eq_true_eq] at hsup
    rcases hsup with he | he | he | he | he | he | he | he | he | he | he | he | he
    all_goals first
      | (rw [step_brk c m he] at h
         injection h with h1 h2
         exact ⟨he, h1.symm, h2.symm⟩)
      | (simp [CPU.step, he] at h; done)
      | (simp [CPU.step, he] at h
         split at h <;> simp_all)
  · rw [step_unsupported c m (by simpa using hsup)] at h
    cases h

/-- C9: whenever run returns normally, the returned state still points
at the 0x00 byte that ended it — the fetched opcode at the final program
counter is 0x00 — and stepping that state again halts with the state and
memory bit-for-bit unchanged, so executing 0x00 advanced no register,
changed no flag and wrote no memory byte before run returned. -/
theorem C9_run_returns_only_at_brk (fuel : Nat) (c : CPU) (m : Mem)
    (c2 : CPU) (m2 : Mem)
    (h : CPU.run fuel c m = some (.halted c2 m2)) :
    Ram.read m2 c2.program_counter = 0x00 ∧ c2.step m2 = .halt c2 m2 := by
  induction fuel generalizing c m with
  | zero => simp [CPU.run] at h
  | succ n ih =>
    rcases hs : c.step m with ⟨c3, m3⟩ | ⟨c3, m3⟩ | ⟨op, c3, m3⟩
    · simp only [CPU.run, hs] at h
      exact ih c3 m3 h
    · simp only [CPU.run, hs, Option.some.injEq, RunRes.halted.injEq] at h
      obtain ⟨rfl, rfl⟩ := h
      obtain ⟨hz, rfl, rfl⟩ := step_halt_inv _ _ _ _ hs
      exact ⟨hz, step_brk _ _ hz⟩
    · simp only [CPU.run, hs] at h
      cases h

/-- Closed instance of C9: the program INX; BRK halts at address 1 with
memory still holding 0x00 there, and stepping the final state halts. -/
theorem C9_run_returns_only_at_brk_witness :
    Ram.read memINX
      (CPU.mk 0 1 0 1).program_counter = 0x00
    ∧ CPU.step (CPU.mk 0 1 0 1) memINX = .halt (CPU.mk 0 1 0 1) memINX :=
  C9_run_returns_only_at_brk 3 CPU.new memINX (CPU.mk 0 1 0 1) memINX rfl

/-- The memory projection commutes with a conditional step outcome. -/
lemma memOf_ite (p : Prop) [Decidable p] (r s : StepRes) :
    memOf (if p then r else s) = if p then memOf r else memOf s := by
  split <;> rfl

/-- The memory projection on a successor outcome. -/
lemma memOf_next (c : CPU) (m : Mem) : memOf (.next c m) = m := rfl

/-- The memory projection on a normal return. -/
lemma memOf_halt (c : CPU) (m : Mem) : memOf (.halt c m) = m := rfl

/-- The memory projection on a fault. -/
lemma memOf_fault (op : Nat) (c : CPU) (m : Mem) :
    memOf (.fault op c m) = m := rfl

/-- C10: for every supported opcode other than 0x8D, one instruction of
the run loop leaves every memory byte unchanged; for 0x8D it replaces
exactly the byte at the absolute operand address (little-endian operand)
with register_a. -/
theorem C10_only_sta_writes (c : CPU) (m : Mem)
    (h : supported (Ram.read m c.program_counter) = true) :
    (Ram.read m c.program_counter ≠ 0x8D → stepMem c m = m)
    ∧ (Ram.read m c.program_counter = 0x8D →
        stepMem c m = Ram.write m
          ((Ram.read m ((c.program_counter + 2) % 65536) <<< 8)
            ||| Ram.read m ((c.program_counter + 1) % 65536))
          c.register_a) := by
  simp only [supported, List.mem_cons, List.not_mem_nil, or_false,
    decide_eq_true_eq] at h
  constructor
  · intro hne
    rcases h with he | he | he | he | he | he | he | he | he | he | he | he | he
    all_goals first
      | exact absurd he hne
      | simp [stepMem, CPU.step, he, memOf_ite, memOf_next, memOf_halt,
          memOf_fault, ite_self]
  · intro heq
    simp [stepMem, CPU.step, heq, memOf_next]

/-- Closed instance of C10 at the STA absolute program: the only write
is register_a at 0x1234. -/
theorem C10_only_sta_writes_witness :
    stepMem { register_a := 0x42, register_x := 0, status := 0,
              program_counter := 0 } memSTA
      = Ram.write memSTA 0x1234 0x42 :=
  ((C10_only_sta_writes
      { register_a := 0x42, register_x := 0, status := 0,
        program_counter := 0 } memSTA (by decide)).2 rfl).trans rfl

end NES
